import Mathlib

/-!
Verification of `src/lib/application.ts` (the TypeDoc `Application` class) against
its natural-language specification.

The embedding translates the TypeScript source into Lean definitions.  External
collaborators (the Node `path`/`fs` modules, the TypeScript compiler API, the
option reader, minimatch) are modelled as explicit environment records whose
fields are uninterpreted functions: every theorem quantifies over them, so the
results hold for any behaviour of those collaborators.  The Converter and the
Serializer are not part of the provided sources; where a claim needs them they
are modelled from the specification and marked as such in their doc comments.
-/

/-- Boolean suffix test on strings, written over the character lists so that it
evaluates inside the kernel.  It models both `String.prototype.endsWith` and the
anchored extension regexes of the source (`/\.tsx?$/` style). -/
def strEndsWith (s suffix : String) : Bool :=
  suffix.data.isSuffixOf s.data

/-- Model of a `ts.SourceFile`: identified by its file name. -/
abbrev SourceFile := String

/-- Model of a `ts.Program`: the observations `Application` makes of a program
are its root file names (`getRootFileNames`), the set of files it contains
(`getSourceFile`), and its pre-emit diagnostics (`ts.getPreEmitDiagnostics`). -/
structure Program where
  rootFileNames : List String
  sourceFiles : List String
  preEmitDiagnostics : List String
deriving DecidableEq

/-- Model of `program.getSourceFile(file)`: returns the source file when the
program contains it, `undefined` otherwise. -/
def Program.getSourceFile (p : Program) (file : String) : Option SourceFile :=
  if file ∈ p.sourceFiles then some file else none

/-- Converter entry point record, from `src/lib/converter`:
`{ displayName, path, sourceFile, program }`. -/
structure DocumentationEntrypoint where
  displayName : String
  path : String
  sourceFile : SourceFile
  program : Program
deriving DecidableEq

/-- Environment of path utilities external to `application.ts`: Node `Path`
functions and the `normalizePath` / `getCommonDirectory` helpers from
`src/lib/utils`, which are not part of the provided sources. -/
structure PathEnv where
  resolve : String → String
  join : String → String → String
  normalize : String → String
  relative : String → String → String
  getCommonDirectory : List String → String

/-- Candidate suffixes of the anchored regex `(\/index)?(\.d)?\.[tj]sx?$` used
by `getModuleName`, longest first, so that taking the first match reproduces
the leftmost (longest-suffix) match of the backtracking regex engine. -/
def moduleNameSuffixes : List String :=
  ["/index.d.tsx", "/index.d.jsx", "/index.d.ts", "/index.d.js",
   "/index.tsx", "/index.jsx", "/index.ts", "/index.js",
   ".d.tsx", ".d.jsx", ".d.ts", ".d.js",
   ".tsx", ".jsx", ".ts", ".js"]

/-- Replacement `s.replace(/(\/index)?(\.d)?\.[tj]sx?$/, "")`. -/
def removeModuleSuffix (s : String) : String :=
  match moduleNameSuffixes.find? (fun suf => strEndsWith s suf) with
  | some suf => ⟨s.data.take (s.data.length - suf.data.length)⟩
  | none => s

/-- Embedding of `getModuleName` (`application.ts` lines 134-139). -/
def getModuleName (env : PathEnv) (fileName baseDir : String) : String :=
  removeModuleSuffix (env.normalize (env.relative baseDir fileName))

/-- Test `supportedFileRegex.test(file)` from `expandInputFiles`: the regex is
`/\.[tj]sx?$/` when `allowJs || checkJs` holds and `/\.tsx?$/` otherwise. -/
def supportedFileTest (allowJs : Bool) (file : String) : Bool :=
  if allowJs then
    strEndsWith file ".ts" || strEndsWith file ".tsx" ||
      strEndsWith file ".js" || strEndsWith file ".jsx"
  else
    strEndsWith file ".ts" || strEndsWith file ".tsx"

/-- Model of a file-system node as observed through `FS.statSync` and
`FS.readdirSync`: a plain file, a directory with its ordered listing, or a
node whose `statSync` throws (no permission or a dangling symbolic link). -/
inductive FsEntry where
  | file
  | broken
  | dir (children : List (String × FsEntry))

mutual

/-- Embedding of the inner closure `add(file, entryPoint)` of
`Application.expandInputFiles` (`application.ts` lines 548-572).  The path of
the node is passed alongside the node itself; recursion into a directory joins
the child name onto the path exactly as `Path.join` does in the source. -/
def addEntry (env : PathEnv) (exclude : String → Bool) (allowJs : Bool)
    (path : String) : FsEntry → Bool → List String
  | .broken, _ => []
  | .file, entryPoint =>
      if !entryPoint && exclude (env.normalize path) then []
      else if supportedFileTest allowJs path then [env.normalize path]
      else []
  | .dir children, entryPoint =>
      let path := if strEndsWith path "/" then path else path ++ "/"
      if !entryPoint && exclude (env.normalize path) then []
      else addChildren env exclude allowJs path children

/-- Embedding of `FS.readdirSync(file).forEach(next => add(Path.join(file, next), false))`. -/
def addChildren (env : PathEnv) (exclude : String → Bool) (allowJs : Bool)
    (path : String) : List (String × FsEntry) → List String
  | [] => []
  | (name, e) :: rest =>
      addEntry env exclude allowJs (env.join path name) e false ++
        addChildren env exclude allowJs path rest

end

/-- Warning text of `expandInputFiles` for a missing entry point. -/
def missingEntryPointWarning (file : String) : String :=
  s!"Provided entry point {file} does not exist and will not be included in the docs."

/-- Embedding of the `inputFiles.forEach` loop of `Application.expandInputFiles`
(`application.ts` lines 574-584): resolve each input, warn and skip it when it
does not exist, otherwise run `add(resolved, true)`.  The file system is the
function `fs`; `fs p = none` models `FS.existsSync(p) === false`.  Returns the
collected files together with the warnings issued. -/
def expandLoop (env : PathEnv) (fs : String → Option FsEntry)
    (exclude : String → Bool) (allowJs : Bool) :
    List String → List String × List String
  | [] => ([], [])
  | file :: rest =>
      let r := expandLoop env fs exclude allowJs rest
      match fs (env.resolve file) with
      | none => (r.1, missingEntryPointWarning file :: r.2)
      | some e => (addEntry env exclude allowJs (env.resolve file) e true ++ r.1, r.2)

/-- Model of a `package.json` manifest as used here: only its `name` field is
read after validation by `loadPackageManifest`. -/
structure PackageJson where
  name : String
deriving DecidableEq

/-- Result of `getTsEntryPointForPackage` when it does not fail: either the
`ignorePackage` sentinel or the path of the TypeScript entry point. -/
inductive TsEntryPointResult where
  | ignore
  | entry (path : String)
deriving DecidableEq

/-- Observations of `ts.getParsedCommandLineOfConfigFile`: the parsed file
names, the non-fatal errors, and whether the unrecoverable-diagnostic callback
fired (which sets `fatalError` in the source). -/
structure ParsedCommandLine where
  fileNames : List String
  errors : List String
  fatalError : Bool
deriving DecidableEq

/-- Environment of the collaborators of `getEntrypointsForPackages`, all of
which live outside `application.ts` (`src/lib/utils/package-manifest`, Node
`path`, and the TypeScript compiler API).  `expandedPackages` is the result of
`expandPackages(logger, ".", packageGlobPaths)`. -/
structure PackageEnv where
  expandedPackages : List String
  resolveJoin : String → String → String
  loadPackageManifest : String → Option PackageJson
  getTsEntryPointForPackage : String → PackageJson → Option TsEntryPointResult
  findConfigFile : String → Option String
  getParsedCommandLine : String → Option ParsedCommandLine
  createProgram : ParsedCommandLine → Program

/-- Embedding of the `for (const packagePath of expandedPackages)` loop of
`getEntrypointsForPackages` (`application.ts` lines 62-130).  Any `return;`
taken inside the loop body in the source becomes `none` here; `continue` on the
`ignorePackage` sentinel skips to the rest of the list. -/
def packagesLoop (env : PackageEnv) : List String → Option (List DocumentationEntrypoint)
  | [] => some []
  | packagePath :: rest =>
      let packageJsonPath := env.resolveJoin packagePath "package.json"
      match env.loadPackageManifest packageJsonPath with
      | none => none
      | some packageJson =>
        match env.getTsEntryPointForPackage packageJsonPath packageJson with
        | none => none
        | some .ignore => packagesLoop env rest
        | some (.entry packageEntryPoint) =>
          match env.findConfigFile packageEntryPoint with
          | none => none
          | some tsconfigFile =>
            match env.getParsedCommandLine tsconfigFile with
            | none => none
            | some parsedCommandLine =>
              if parsedCommandLine.fatalError then none
              else
                let program := env.createProgram parsedCommandLine
                match program.getSourceFile packageEntryPoint with
                | none => none
                | some sourceFile =>
                  (packagesLoop env rest).map (fun results =>
                    { displayName := packageJson.name,
                      path := packageEntryPoint,
                      program := program,
                      sourceFile := sourceFile } :: results)

/-- Embedding of `getEntrypointsForPackages` (`application.ts` lines 54-132):
returns the discovered entry points, or `none` when an error occurs. -/
def getEntrypointsForPackages (env : PackageEnv) : Option (List DocumentationEntrypoint) :=
  packagesLoop env env.expandedPackages

/-- Modelled from the spec: the SemanticProvider declarations reachable from an
entry point (§6 "Enumerate declarations reachable from a given entry point").
Only the name and the source-ordered children matter for the claims settled
here. -/
inductive Decl where
  | mk (name : String) (children : List Decl)

/-- Modelled from the spec: a node of the Reflection graph (§3) restricted to
the fields the determinism claims speak about — the run-unique `id`, the
`name`, and the `children` owned in source declaration order. -/
inductive Reflection where
  | mk (id : Nat) (name : String) (children : List Reflection)

/-- Modelled from the spec: the root of the documentation model (§3
"ProjectReflection (root, one per run)"). -/
structure ProjectReflection where
  root : Reflection

mutual

/-- Modelled from the spec: depth-first conversion of one declaration (§4.2).
It allocates a fresh id from the single monotonic counter, then recurses into
the children in source declaration order, threading the counter through. -/
def convertDecl (counter : Nat) : Decl → Reflection × Nat
  | .mk name children =>
      let r := convertDecls (counter + 1) children
      (.mk counter name r.1, r.2)

/-- Modelled from the spec: conversion of a sibling list, left to right, so
that children order follows source declaration order (§4.2). -/
def convertDecls (counter : Nat) : List Decl → List Reflection × Nat
  | [] => ([], counter)
  | d :: ds =>
      let r := convertDecl counter d
      let rs := convertDecls r.2 ds
      (r.1 :: rs.1, rs.2)

end

/-- Modelled from the spec: conversion of the entry-point list (§4.2, §5).  The
entry points are processed sequentially into one shared project with a single
monotonic id counter; for each entry point a Module reflection is created keyed
by its display name, holding the conversion of the declarations the provider
reports for its source file. -/
def convertModules (provider : String → List Decl) (counter : Nat) :
    List DocumentationEntrypoint → List Reflection × Nat
  | [] => ([], counter)
  | e :: es =>
      let r := convertDecls (counter + 1) (provider e.sourceFile)
      let rest := convertModules provider r.2 es
      (Reflection.mk counter e.displayName r.1 :: rest.1, rest.2)

/-- Modelled from the spec: `Converter.convert(entrypoints)` — produce a fresh
ProjectReflection (id 0) whose children are the entry-point modules, ids
assigned by one monotonic counter starting from a fixed origin, a pure function
of the provider input and the entry points. -/
def converterConvert (provider : String → List Decl)
    (entrypoints : List DocumentationEntrypoint) : ProjectReflection :=
  ⟨.mk 0 "project" (convertModules provider 1 entrypoints).1⟩

/-- State of the `Application` instance relevant to `convert`, `convertAndWatch`
and their helpers: the bound options (`entryPoints`, `exclude`, `packages`,
`tsconfig` file names), the external path and file-system collaborators, the
program the TypeScript API builds for the resolved tsconfig together with its
resolved project references, and the (spec-modelled) semantic provider feeding
the Converter. -/
structure App where
  pathEnv : PathEnv
  fs : String → Option FsEntry
  exclude : String → Bool
  allowJs : Bool
  entryPoints : List String
  packages : List String
  packageEnv : PackageEnv
  fileNames : List String
  rootProgram : Program
  resolvedReferences : Option (List (Option Program))
  tsconfigFile : String
  provider : String → List Decl
  pretty : Bool

namespace Application

/-- Embedding of `Application.expandInputFiles` (`application.ts` lines
534-587), returning the expanded file list together with the warnings issued
for entry points that do not exist. -/
def expandInputFiles (app : App) (inputFiles : List String) :
    List String × List String :=
  expandLoop app.pathEnv app.fs app.exclude app.allowJs inputFiles

end Application

/-- First program of the list that contains `file`, together with the source
file it returns: the inner `for (const program of programs)` loop with its
`continue entryLoop` exit (`application.ts` lines 629-640). -/
def findSourceProgram : List Program → String → Option (Program × SourceFile)
  | [], _ => none
  | p :: ps, file =>
      match p.getSourceFile file with
      | some sourceFile => some (p, sourceFile)
      | none => findSourceProgram ps file

/-- Warning text of `getEntrypointsForPaths` for an entry point no program
contains. -/
def unableToLocateWarning (file : String) : String :=
  s!"Unable to locate entry point: {file}"

/-- Embedding of the `entryLoop` of `getEntrypointsForPaths` (`application.ts`
lines 628-644): one pass over the expanded files, producing at most one entry
point per file and a warning for each file no program contains. -/
def entrypointsLoop (env : PathEnv) (baseDir : String) (programs : List Program) :
    List String → List DocumentationEntrypoint × List String
  | [] => ([], [])
  | file :: rest =>
      let r := entrypointsLoop env baseDir programs rest
      match findSourceProgram programs file with
      | some ps =>
          ({ displayName := getModuleName env (env.resolve file) baseDir,
             path := file,
             sourceFile := ps.2,
             program := ps.1 } :: r.1, r.2)
      | none => (r.1, unableToLocateWarning file :: r.2)

/-- Program list built by `getEntrypointsForPaths` (`application.ts` lines
599-624): the root program first; when the root program has no root file names
(solution-style tsconfig) one program per non-null resolved project reference
is appended, in order. -/
def programsFor (app : App) : List Program :=
  app.rootProgram ::
    (if app.rootProgram.rootFileNames.length == 0 then
      (app.resolvedReferences.getD []).filterMap id
    else [])

namespace Application

/-- Embedding of `Application.getEntrypointsForPaths` (`application.ts` lines
596-646), returning the entry points together with all warnings issued (those
of `expandInputFiles` followed by those of the entry loop). -/
def getEntrypointsForPaths (app : App) (entryPointPaths : List String) :
    List DocumentationEntrypoint × List String :=
  let programs := programsFor app
  let expanded := Application.expandInputFiles app entryPointPaths
  let baseDir := app.pathEnv.getCommonDirectory expanded.1
  let r := entrypointsLoop app.pathEnv baseDir programs
    (expanded.1.map app.pathEnv.normalize)
  (r.1, expanded.2 ++ r.2)

/-- Entry-point selection step of `Application.convert` (`application.ts` lines
310-322): run `getEntrypointsForPackages`; on its failure the whole conversion
fails; when it finds no package entry points fall back to the file-oriented
entry points.  Returns the entry points with the warnings issued. -/
def convertEntrypoints (app : App) :
    Option (List DocumentationEntrypoint × List String) :=
  match getEntrypointsForPackages app.packageEnv with
  | none => none
  | some packageEntrypoints =>
      if packageEntrypoints.length == 0 then
        some (Application.getEntrypointsForPaths app app.entryPoints)
      else
        some (packageEntrypoints, [])

/-- Embedding of `Application.convert` (`application.ts` lines 282-340),
omitting the version / empty-compiler-options warnings and the optional `emit`
side effect, none of which affect the returned value.  Returns the produced
project (or `none` on the fatal paths) together with the warnings issued. -/
def convert (app : App) : Option ProjectReflection × List String :=
  match Application.convertEntrypoints app with
  | none => (none, [])
  | some (entrypoints, warnings) =>
      let programs := entrypoints.map DocumentationEntrypoint.program
      let errors := programs.flatMap Program.preEmitDiagnostics
      if errors.length ≠ 0 then (none, warnings)
      else (some (converterConvert app.provider entrypoints), warnings)

end Application

/-- Warning text of the watch-mode `runSuccess` for an entry point the current
program does not contain. -/
def watchUnableToLocateWarning (file tsconfigFile : String) : String :=
  s!"Unable to locate entry point: {file} within the program defined by {tsconfigFile}"

/-- Embedding of the entry-point loop inside the watch-mode `runSuccess`
(`application.ts` lines 443-457): every expanded file is looked up in the
current program only. -/
def watchEntryLoop (env : PathEnv) (baseDir tsconfigFile : String)
    (program : Program) : List String → List DocumentationEntrypoint × List String
  | [] => ([], [])
  | file :: rest =>
      let r := watchEntryLoop env baseDir tsconfigFile program rest
      match program.getSourceFile file with
      | some sourceFile =>
          ({ displayName := getModuleName env (env.resolve file) baseDir,
             path := file,
             sourceFile := sourceFile,
             program := program } :: r.1, r.2)
      | none => (r.1, watchUnableToLocateWarning file tsconfigFile :: r.2)

/-- Entry-point computation of the watch-mode `runSuccess` (`application.ts`
lines 440-457): the input file list, the base directory and the entry points
are recomputed from scratch on every successful rebuild. -/
def watchEntrypoints (app : App) (program : Program) :
    List DocumentationEntrypoint × List String :=
  let expanded := Application.expandInputFiles app app.entryPoints
  let baseDir := app.pathEnv.getCommonDirectory expanded.1
  watchEntryLoop app.pathEnv baseDir app.tsconfigFile program
    (expanded.1.map app.pathEnv.normalize)

/-- Project produced by one successful watch-mode rebuild of `program`: the
full pipeline (`expandInputFiles`, `getCommonDirectory`, entry-point lookup,
`converter.convert`) run afresh, a function of the application environment and
the program only. -/
def watchConvert (app : App) (program : Program) : ProjectReflection :=
  converterConvert app.provider (watchEntrypoints app program).1

/-- Mutable state captured by the closures of `convertAndWatch`
(`application.ts` lines 430-431): the `successFinished` flag and the stored
`currentProgram`.  The `conversions` field is the observation log: the projects
handed to the `success` callback, in order. -/
structure WatchState where
  successFinished : Bool
  currentProgram : Option Program
  conversions : List ProjectReflection

/-- Embedding of the `runSuccess` closure (`application.ts` lines 433-466):
with no stored program it does nothing; with a pending success callback
(`successFinished` false) it also does nothing; otherwise it converts the
stored program, clears it, marks the callback pending and dispatches the fresh
project to the `success` callback (logged in `conversions`). -/
def runSuccess (app : App) (s : WatchState) : WatchState :=
  match s.currentProgram with
  | none => s
  | some program =>
      if s.successFinished then
        { successFinished := false,
          currentProgram := none,
          conversions := s.conversions ++ [watchConvert app program] }
      else s

/-- Events driving the watch loop: `afterProgramCreate` fired by the watch host
with a freshly built program (`application.ts` lines 469-475), and the
resolution of the `success(project)` promise (`application.ts` lines 461-464). -/
inductive WatchEvent where
  | afterProgramCreate (program : Program)
  | successComplete

/-- One transition of the watch loop.  `afterProgramCreate` stores the program
and calls `runSuccess` only when the program has no pre-emit diagnostics;
`successComplete` sets `successFinished` and calls `runSuccess` again, exactly
as the `.then` continuation does in the source. -/
def watchStep (app : App) (s : WatchState) : WatchEvent → WatchState
  | .afterProgramCreate program =>
      if program.preEmitDiagnostics.length == 0 then
        runSuccess app { s with currentProgram := some program }
      else s
  | .successComplete =>
      runSuccess app { s with successFinished := true }

/-- Initial watch state (`application.ts` lines 430-431): `successFinished`
true, no stored program, nothing converted yet. -/
def initialWatchState : WatchState :=
  { successFinished := true, currentProgram := none, conversions := [] }

namespace Application

/-- Embedding of the configuration gate of `Application.convertAndWatch`
(`application.ts` lines 376-391, 430-477): with a tsconfig contributing no file
names, or a non-empty `packages` option, an error is logged and no watch
program is created (`none`); otherwise the watch loop starts in
`initialWatchState`. -/
def convertAndWatch (app : App) : Option WatchState :=
  if app.fileNames.length == 0 then none
  else if app.packages.length ≠ 0 then none
  else some initialWatchState

end Application

/-- Modelled from the spec: the acyclic JSON interchange value the Serializer
produces (§4.6, §6 "JSON shape"). -/
inductive Json where
  | num (n : Nat)
  | str (s : String)
  | arr (elements : List Json)
  | obj (fields : List (String × Json))

mutual

/-- Modelled from the spec: recursive serialization of one Reflection into the
interchange shape `{ id, name, children: [...] }`, owned children emitted as
nested objects in order (§4.6, §6). -/
def reflectionToObject : Reflection → Json
  | .mk id name children =>
      .obj [("id", .num id), ("name", .str name),
            ("children", .arr (reflectionsToObject children))]

/-- Modelled from the spec: serialization of an owned child list in order. -/
def reflectionsToObject : List Reflection → List Json
  | [] => []
  | r :: rs => reflectionToObject r :: reflectionsToObject rs

end

/-- Embedding of `this.serializer.projectToObject(project, ...)` as called by
`generateJson` (`application.ts` line 513); the Serializer itself is modelled
from the spec (§4.6). -/
def projectToObject (project : ProjectReflection) : Json :=
  reflectionToObject project.root

mutual

/-- Modelled from the spec: deterministic textual emission of a JSON value,
standing in for `JSON.stringify(ser, null, space)` (`application.ts` line 520).
Fields and elements are emitted in their stored order; `space` is the
indentation unit. -/
def stringifyJson (space indent : String) : Json → String
  | .num n => toString n
  | .str s => "\x22" ++ s ++ "\x22"
  | .arr elements =>
      "[" ++ stringifyElems space (indent ++ space) elements ++ "]"
  | .obj fields =>
      "\x7b" ++ stringifyFields space (indent ++ space) fields ++ "\x7d"

/-- Modelled from the spec: comma-separated emission of array elements. -/
def stringifyElems (space indent : String) : List Json → String
  | [] => ""
  | [j] => stringifyJson space indent j
  | j :: rest =>
      stringifyJson space indent j ++ "," ++ stringifyElems space indent rest

/-- Modelled from the spec: comma-separated emission of object fields. -/
def stringifyFields (space indent : String) : List (String × Json) → String
  | [] => ""
  | [(k, v)] => "\x22" ++ k ++ "\x22:" ++ stringifyJson space indent v
  | (k, v) :: rest =>
      "\x22" ++ k ++ "\x22:" ++ stringifyJson space indent v ++ "," ++
        stringifyFields space indent rest

end

namespace Application

/-- Serialization step of `Application.generateJson` (`application.ts` lines
504-522): serialize the project and stringify it, with a tab indentation unit
exactly when the `pretty` option is set.  The file write is a side effect
outside the model; the produced text is the value of interest. -/
def generateJsonText (app : App) (project : ProjectReflection) : String :=
  stringifyJson (if app.pretty then "\t" else "") "" (projectToObject project)

end Application

/-- Two independent runs of the conversion on the same SemanticProvider input:
each run builds its own ProjectReflection with its own fresh id counter. -/
def convertTwice (provider : String → List Decl)
    (entrypoints : List DocumentationEntrypoint) :
    ProjectReflection × ProjectReflection :=
  (converterConvert provider entrypoints, converterConvert provider entrypoints)

/-- Two invocations of the serialization step of `generateJson` on the same
project in the same run. -/
def generateJsonTwice (app : App) (project : ProjectReflection) :
    String × String :=
  (Application.generateJsonText app project, Application.generateJsonText app project)

/-- Warnings of the expansion loop are exactly one per non-existing input, in
input order. -/
theorem expandLoop_warnings (env : PathEnv) (fs : String → Option FsEntry)
    (exclude : String → Bool) (allowJs : Bool) (files : List String) :
    (expandLoop env fs exclude allowJs files).2 =
      (files.filter (fun f => (fs (env.resolve f)).isNone)).map
        missingEntryPointWarning := by
  induction files with
  | nil => rfl
  | cons f rest ih =>
      cases h : fs (env.resolve f) <;>
        simp [expandLoop, h, ih]

/-- Entry points produced by the entry loop: one per file some program
contains, built from the first such program. -/
theorem entrypointsLoop_entries (env : PathEnv) (baseDir : String)
    (programs : List Program) (files : List String) :
    (entrypointsLoop env baseDir programs files).1 =
      files.filterMap (fun file =>
        (findSourceProgram programs file).map (fun ps =>
          { displayName := getModuleName env (env.resolve file) baseDir,
            path := file,
            sourceFile := ps.2,
            program := ps.1 })) := by
  induction files with
  | nil => rfl
  | cons f rest ih =>
      cases h : findSourceProgram programs f <;>
        simp [entrypointsLoop, h, ih]

/-- Paths of the produced entry points: exactly the files some program
contains, in order. -/
theorem entrypointsLoop_paths (env : PathEnv) (baseDir : String)
    (programs : List Program) (files : List String) :
    (entrypointsLoop env baseDir programs files).1.map
        DocumentationEntrypoint.path =
      files.filter (fun file => (findSourceProgram programs file).isSome) := by
  induction files with
  | nil => rfl
  | cons f rest ih =>
      cases h : findSourceProgram programs f <;>
        simp [entrypointsLoop, h, ih]

/-- Warnings of the entry loop: exactly one per file no program contains, in
order. -/
theorem entrypointsLoop_warnings (env : PathEnv) (baseDir : String)
    (programs : List Program) (files : List String) :
    (entrypointsLoop env baseDir programs files).2 =
      (files.filter (fun file => (findSourceProgram programs file).isNone)).map
        unableToLocateWarning := by
  induction files with
  | nil => rfl
  | cons f rest ih =>
      cases h : findSourceProgram programs f <;>
        simp [entrypointsLoop, h, ih]

/-- The program found by `findSourceProgram` is the first of the list that
contains the file: every program before it misses the file. -/
theorem findSourceProgram_first (programs : List Program) (file : String)
    (p : Program) (sf : SourceFile)
    (h : findSourceProgram programs file = some (p, sf)) :
    ∃ pre post, programs = pre ++ p :: post ∧
      (∀ q ∈ pre, q.getSourceFile file = none) ∧
      p.getSourceFile file = some sf := by
  induction programs with
  | nil => simp [findSourceProgram] at h
  | cons q rest ih =>
      rw [findSourceProgram] at h
      cases hq : q.getSourceFile file with
      | some sf2 =>
          rw [hq] at h
          refine ⟨[], rest, ?_, ?_, ?_⟩ <;>
            simp_all
      | none =>
          rw [hq] at h
          obtain ⟨pre, post, heq, hmiss, hhit⟩ := ih h
          refine ⟨q :: pre, post, by simp [heq], ?_, hhit⟩
          intro r hr
          rcases List.mem_cons.mp hr with rfl | hr
          · exact hq
          · exact hmiss r hr

/-- C1: whenever the programs of the selected entry points report at least one
pre-emit diagnostic, `Application.convert` logs them and returns `undefined`
before any Reflection is produced; and in watch mode `afterProgramCreate`
leaves the state untouched (never stores the program, never invokes the
conversion callback) for a program whose pre-emit diagnostic list is
non-empty. -/
theorem convert_aborts_on_pre_emit_diagnostics :
    (∀ (app : App) (entrypoints : List DocumentationEntrypoint)
        (warnings : List String),
      Application.convertEntrypoints app = some (entrypoints, warnings) →
      (entrypoints.map DocumentationEntrypoint.program).flatMap
          Program.preEmitDiagnostics ≠ [] →
      (Application.convert app).1 = none) ∧
    (∀ (app : App) (s : WatchState) (program : Program),
      program.preEmitDiagnostics ≠ [] →
      watchStep app s (.afterProgramCreate program) = s) := by
  constructor
  · intro app entrypoints warnings h herr
    have hl : ((entrypoints.map DocumentationEntrypoint.program).flatMap
        Program.preEmitDiagnostics).length ≠ 0 :=
      fun hc => herr (List.length_eq_zero.mp hc)
    rw [Application.convert, h]
    show (if ((entrypoints.map DocumentationEntrypoint.program).flatMap
        Program.preEmitDiagnostics).length ≠ 0 then
          ((none : Option ProjectReflection), warnings)
        else (some (converterConvert app.provider entrypoints), warnings)).1 = none
    rw [if_pos hl]
  · intro app s program herr
    rw [watchStep]
    rw [if_neg]
    simp [List.length_eq_zero, herr]

/-- C2: converting a fixed SemanticProvider input twice yields structurally
identical Reflection graphs with identical id assignment and identical child
ordering — each run is the same pure function of the provider and the entry
points, with its own fresh monotonic id counter. -/
theorem converter_deterministic (provider : String → List Decl)
    (entrypoints : List DocumentationEntrypoint) :
    (convertTwice provider entrypoints).1 = (convertTwice provider entrypoints).2 :=
  rfl

/-- C3: an entry point that cannot be located is a warning, never fatal: an
input path that does not exist yields exactly one warning and is skipped by
`expandInputFiles`, a file no program contains yields exactly one warning and
is skipped by `getEntrypointsForPaths`, and the returned entry-point list
consists of exactly the locatable files, in order, however many unlocatable
ones precede or follow them. -/
theorem unlocatable_entry_points_warn_and_skip (app : App) (paths : List String) :
    (Application.expandInputFiles app paths).2 =
      (paths.filter (fun f => (app.fs (app.pathEnv.resolve f)).isNone)).map
        missingEntryPointWarning ∧
    (Application.getEntrypointsForPaths app paths).1.map
        DocumentationEntrypoint.path =
      ((Application.expandInputFiles app paths).1.map app.pathEnv.normalize).filter
        (fun f => (findSourceProgram (programsFor app) f).isSome) ∧
    (Application.getEntrypointsForPaths app paths).2 =
      (Application.expandInputFiles app paths).2 ++
        (((Application.expandInputFiles app paths).1.map
            app.pathEnv.normalize).filter
          (fun f => (findSourceProgram (programsFor app) f).isNone)).map
          unableToLocateWarning := by
  refine ⟨expandLoop_warnings _ _ _ _ _, ?_, ?_⟩
  · rw [Application.getEntrypointsForPaths]
    exact entrypointsLoop_paths _ _ _ _
  · rw [Application.getEntrypointsForPaths]
    simp only []
    rw [entrypointsLoop_warnings]

/-- C7: the serialization step of `Application.generateJson` is deterministic:
serializing a fixed ProjectReflection twice in the same run, with fixed
options, produces byte-identical JSON text. -/
theorem serialization_deterministic (app : App) (project : ProjectReflection) :
    (generateJsonTwice app project).1 = (generateJsonTwice app project).2 :=
  rfl

/-- C10: `Application.convertAndWatch` never starts watching under an
unsupported configuration: when the resolved tsconfig contributes no file
names, or the `packages` option is non-empty, it returns without creating a
watch program, so no conversion and no success callback ever runs. -/
theorem watch_rejects_unsupported_configuration (app : App)
    (h : app.fileNames = [] ∨ app.packages ≠ []) :
    Application.convertAndWatch app = none := by
  rw [Application.convertAndWatch]
  rcases h with h | h
  · rw [if_pos]
    simp [h]
  · by_cases hf : app.fileNames.length == 0
    · simp [hf]
    · rw [if_neg (by simp_all)]
      rw [if_pos]
      simp [List.length_eq_zero, h]

/-- C8: exclude patterns are never applied to a path given directly in the
input list.  First: a directly given supported source file is included for
every exclude configuration, with no assumption relating the excludes to the
path.  Second: a directly given directory is always recursed into, again for
every exclude configuration.  Third: exclusion does filter the files
discovered while recursing (a discovered file whose normalized path matches an
exclude pattern contributes nothing). -/
theorem exclude_ignored_for_direct_entry_points :
    (∀ (app : App) (f : String),
      app.fs (app.pathEnv.resolve f) = some .file →
      supportedFileTest app.allowJs (app.pathEnv.resolve f) = true →
      app.pathEnv.normalize (app.pathEnv.resolve f) ∈
        (Application.expandInputFiles app [f]).1) ∧
    (∀ (env : PathEnv) (exclude : String → Bool) (allowJs : Bool)
        (path : String) (children : List (String × FsEntry)),
      addEntry env exclude allowJs path (.dir children) true =
        addChildren env exclude allowJs
          (if strEndsWith path "/" then path else path ++ "/") children) ∧
    (∀ (env : PathEnv) (exclude : String → Bool) (allowJs : Bool)
        (path : String),
      exclude (env.normalize path) = true →
      addEntry env exclude allowJs path .file false = []) := by
  refine ⟨?_, ?_, ?_⟩
  · intro app f hfs hsupp
    rw [Application.expandInputFiles, expandLoop, expandLoop, hfs]
    simp [addEntry, hsupp]
  · intro env exclude allowJs path children
    rw [addEntry]
    simp
  · intro env exclude allowJs path hexcl
    rw [addEntry]
    simp [hexcl]

/-- C9: in `getEntrypointsForPaths` every expanded input file yields at most
one DocumentationEntrypoint — the entry list is a `filterMap` of the expanded
files — and the program attached to it is the first program of the list (the
root program first, then the programs of the resolved project references) whose
source-file table contains the file; a file contained in no program yields no
entry point, every program before the chosen one misses the file, and each
unlocatable file yields exactly one warning. -/
theorem entrypoints_use_first_containing_program (app : App)
    (paths : List String) :
    (Application.getEntrypointsForPaths app paths).1 =
      ((Application.expandInputFiles app paths).1.map app.pathEnv.normalize).filterMap
        (fun file =>
          (findSourceProgram (programsFor app) file).map (fun ps =>
            { displayName :=
                getModuleName app.pathEnv (app.pathEnv.resolve file)
                  (app.pathEnv.getCommonDirectory
                    (Application.expandInputFiles app paths).1),
              path := file,
              sourceFile := ps.2,
              program := ps.1 })) ∧
    (∀ (file : String) (p : Program) (sf : SourceFile),
      findSourceProgram (programsFor app) file = some (p, sf) →
      ∃ pre post, programsFor app = pre ++ p :: post ∧
        (∀ q ∈ pre, q.getSourceFile file = none) ∧
        p.getSourceFile file = some sf) ∧
    (Application.getEntrypointsForPaths app paths).2 =
      (Application.expandInputFiles app paths).2 ++
        (((Application.expandInputFiles app paths).1.map
            app.pathEnv.normalize).filter
          (fun f => (findSourceProgram (programsFor app) f).isNone)).map
          unableToLocateWarning := by
  refine ⟨?_, ?_, ?_⟩
  · rw [Application.getEntrypointsForPaths]
    exact entrypointsLoop_entries _ _ _ _
  · intro file p sf h
    exact findSourceProgram_first _ _ _ _ h
  · rw [Application.getEntrypointsForPaths]
    simp only []
    rw [entrypointsLoop_warnings]

/-- While a success callback is pending, `afterProgramCreate` with a clean
program only replaces the stored current program. -/
theorem watchStep_pending (app : App) (s : WatchState) (program : Program)
    (hpending : s.successFinished = false)
    (hclean : program.preEmitDiagnostics = []) :
    watchStep app s (.afterProgramCreate program) =
      { s with currentProgram := some program } := by
  rw [watchStep]
  rw [if_pos (by simp [hclean])]
  rw [runSuccess]
  simp [hpending]

/-- C5: a rebuild already in flight is never preempted.  While the success
callback of a previous conversion is pending, any burst of newly created
clean programs only replaces the stored current program — no conversion is
dispatched and the pending flag stays down — and when the pending callback
completes, exactly the single latest program of the burst is converted:
earlier intermediate programs are discarded and the dispatched project is
`watchConvert` of the last program alone, never merged with anything. -/
theorem watch_in_flight_rebuild_not_preempted (app : App) (s : WatchState)
    (programs : List Program) (lastProgram : Program)
    (hpending : s.successFinished = false)
    (hclean : ∀ p ∈ programs, p.preEmitDiagnostics = [])
    (hlast : programs.getLast? = some lastProgram) :
    (programs.foldl (fun st p => watchStep app st (.afterProgramCreate p)) s) =
      { s with currentProgram := some lastProgram } ∧
    watchStep app
      (programs.foldl (fun st p => watchStep app st (.afterProgramCreate p)) s)
      .successComplete =
      { successFinished := false, currentProgram := none,
        conversions := s.conversions ++ [watchConvert app lastProgram] } := by
  have hfold : ∀ (t : WatchState) (ps : List Program) (lp : Program),
      t.successFinished = false →
      (∀ p ∈ ps, p.preEmitDiagnostics = []) →
      ps.getLast? = some lp →
      (ps.foldl (fun st p => watchStep app st (.afterProgramCreate p)) t) =
        { t with currentProgram := some lp } := by
    intro t ps
    induction ps generalizing t with
    | nil => intro lp _ _ hl; simp at hl
    | cons p rest ih =>
        intro lp hp hc hl
        rw [List.foldl_cons]
        rw [watchStep_pending app t p hp (hc p (List.mem_cons_self p rest))]
        cases hrest : rest with
        | nil =>
            subst hrest
            simp at hl
            subst hl
            rfl
        | cons q qs =>
            have hl2 : rest.getLast? = some lp := by
              rw [hrest]
              rw [hrest] at hl
              rwa [List.getLast?_cons_cons] at hl
            rw [← hrest]
            exact ih { t with currentProgram := some p } lp hp
              (fun r hr => hc r (List.mem_cons_of_mem p hr)) hl2
  have h1 := hfold s programs lastProgram hpending hclean hlast
  refine ⟨h1, ?_⟩
  rw [h1, watchStep, runSuccess]
  simp

/-- Projects dispatched by one watch transition, as a function of the incoming
flag, the stored program and the event alone. -/
def watchEmitted (app : App) (successFinished : Bool)
    (currentProgram : Option Program) : WatchEvent → List ProjectReflection
  | .afterProgramCreate p =>
      if p.preEmitDiagnostics.length == 0 then
        if successFinished then [watchConvert app p] else []
      else []
  | .successComplete =>
      match currentProgram with
      | some p => [watchConvert app p]
      | none => []

/-- The conversion log of a watch transition grows exactly by
`watchEmitted`, which does not read the log. -/
theorem watchStep_conversions (app : App) (s : WatchState) (e : WatchEvent) :
    (watchStep app s e).conversions =
      s.conversions ++ watchEmitted app s.successFinished s.currentProgram e := by
  obtain ⟨sf, cp, cv⟩ := s
  cases e with
  | afterProgramCreate p =>
      by_cases hd : p.preEmitDiagnostics.length == 0
      · rw [watchStep, if_pos hd, runSuccess]
        cases sf <;> simp [watchEmitted, hd]
      · rw [watchStep, if_neg hd]
        simp [watchEmitted, hd]
  | successComplete =>
      rw [watchStep, runSuccess]
      cases cp <;> simp [watchEmitted]

/-- C6: every triggering change reruns the full pipeline from scratch.  Each
transition of the watch loop appends to the conversion log either nothing or
exactly one project of the form `watchConvert app p` — the full pipeline
(input-file expansion, base-directory computation, entry-point lookup and
conversion) applied afresh to a single program — and the appended part is
independent of the conversions already performed: two states agreeing on the
stored program and the pending flag, whatever their histories, append the same
fresh projects. -/
theorem watch_rebuild_runs_full_pipeline (app : App) (s : WatchState)
    (e : WatchEvent) :
    ((watchStep app s e).conversions = s.conversions ∨
      ∃ p, (watchStep app s e).conversions =
        s.conversions ++ [watchConvert app p]) ∧
    (∀ t : WatchState, s.currentProgram = t.currentProgram →
      s.successFinished = t.successFinished →
      (watchStep app s e).conversions.drop s.conversions.length =
        (watchStep app t e).conversions.drop t.conversions.length) := by
  constructor
  · rw [watchStep_conversions]
    have : watchEmitted app s.successFinished s.currentProgram e = [] ∨
        ∃ p, watchEmitted app s.successFinished s.currentProgram e =
          [watchConvert app p] := by
      cases e with
      | afterProgramCreate p =>
          by_cases hd : p.preEmitDiagnostics.length == 0
          · cases hsf : s.successFinished
            · left; simp [watchEmitted, hd]
            · right; exact ⟨p, by simp [watchEmitted, hd]⟩
          · left; simp [watchEmitted, hd]
      | successComplete =>
          cases hcp : s.currentProgram with
          | none => left; simp [watchEmitted, hcp]
          | some p => right; exact ⟨p, by simp [watchEmitted, hcp]⟩
    rcases this with h | ⟨p, h⟩
    · left; simp [h]
    · right; exact ⟨p, by simp [h]⟩
  · intro t hcp hsf
    rw [watchStep_conversions, watchStep_conversions, hcp, hsf,
      List.drop_left, List.drop_left]

/-- Identity-like path environment for concrete runs: paths are already
absolute and normalized. -/
def samplePathEnv : PathEnv :=
  { resolve := id, join := fun a b => a ++ b, normalize := id,
    relative := fun _ f => f, getCommonDirectory := fun _ => "" }

/-- Concrete clean program containing the single file `a.ts`. -/
def sampleProgram : Program :=
  { rootFileNames := ["a.ts"], sourceFiles := ["a.ts"], preEmitDiagnostics := [] }

/-- Concrete package environment with no packages configured, so
`getEntrypointsForPackages` finds no package entry points. -/
def samplePackageEnv : PackageEnv :=
  { expandedPackages := [],
    resolveJoin := fun a b => a ++ "/" ++ b,
    loadPackageManifest := fun _ => none,
    getTsEntryPointForPackage := fun _ _ => none,
    findConfigFile := fun _ => none,
    getParsedCommandLine := fun _ => none,
    createProgram := fun _ => sampleProgram }

/-- Concrete file system holding exactly the file `a.ts`. -/
def sampleFs : String → Option FsEntry :=
  fun p => if p == "a.ts" then some .file else none

/-- Concrete application run whose entry-point list names `missing.ts`, a path
that does not exist, ahead of the locatable `a.ts`. -/
def sampleApp : App :=
  { pathEnv := samplePathEnv, fs := sampleFs, exclude := fun _ => false,
    allowJs := false, entryPoints := ["missing.ts", "a.ts"], packages := [],
    packageEnv := samplePackageEnv, fileNames := ["a.ts"],
    rootProgram := sampleProgram, resolvedReferences := none,
    tsconfigFile := "tsconfig.json", provider := fun _ => [], pretty := false }

/-- C4 counterexample: on `sampleApp` the entry point `missing.ts` cannot be
located — the run emits exactly its warning — and yet `Application.convert`
does not return `undefined`: it produces a project.  Unlocatable
file-oriented entry points are therefore not fatal in a non-watch single
run. -/
theorem unlocatable_entry_point_not_fatal :
    (Application.convert sampleApp).2 =
      [missingEntryPointWarning "missing.ts"] ∧
    (Application.convert sampleApp).1.isSome = true := by
  constructor <;>
    simp [Application.convert, Application.convertEntrypoints,
      Application.getEntrypointsForPaths, Application.expandInputFiles,
      getEntrypointsForPackages, packagesLoop, samplePackageEnv, sampleApp,
      expandLoop, sampleFs, samplePathEnv, addEntry, entrypointsLoop,
      programsFor, sampleProgram, findSourceProgram, Program.getSourceFile]

/-- C4 amended: in a non-watch single run the fatal entry-point condition is a
failure of package-oriented entry-point resolution: whenever
`getEntrypointsForPackages` reports an error (returns `undefined`),
`Application.convert` yields no result; unlocatable file-oriented entry points
are only warnings and are skipped. -/
theorem package_entrypoint_failure_fatal (app : App)
    (h : getEntrypointsForPackages app.packageEnv = none) :
    (Application.convert app).1 = none := by
  rw [Application.convert, Application.convertEntrypoints, h]

/-- Concrete package environment whose single package has an unreadable
manifest, so its entry point cannot be determined. -/
def failingPackageEnv : PackageEnv :=
  { samplePackageEnv with expandedPackages := ["pkg"] }

/-- Concrete application run in packages mode with a failing package. -/
def failingPackageApp : App :=
  { sampleApp with packages := ["pkg"], packageEnv := failingPackageEnv }

/-- Witness for the amended C4 theorem at a concrete input: package resolution
fails for `failingPackageApp` and `convert` returns no project. -/
theorem package_entrypoint_failure_fatal_witness :
    (Application.convert failingPackageApp).1 = none :=
  package_entrypoint_failure_fatal failingPackageApp rfl

/-- Concrete program whose pre-emit diagnostics are non-empty. -/
def errorProgram : Program :=
  { rootFileNames := ["a.ts"], sourceFiles := ["a.ts"],
    preEmitDiagnostics := ["TS2322: type mismatch"] }

/-- Concrete application run whose root program reports a semantic error. -/
def errorApp : App :=
  { sampleApp with entryPoints := ["a.ts"], rootProgram := errorProgram }

/-- Witness for C1 at a concrete input: on `errorApp` the selected entry point
carries `errorProgram`, whose diagnostics are non-empty, so `convert` returns
no project; and feeding `errorProgram` to the watch loop leaves the initial
state untouched. -/
theorem convert_aborts_on_pre_emit_diagnostics_witness :
    (Application.convert errorApp).1 = none ∧
    watchStep errorApp initialWatchState (.afterProgramCreate errorProgram) =
      initialWatchState := by
  constructor
  · exact convert_aborts_on_pre_emit_diagnostics.1 errorApp
      [{ displayName := "a", path := "a.ts", sourceFile := "a.ts",
         program := errorProgram }] []
      (by simp [Application.convertEntrypoints,
        Application.getEntrypointsForPaths, Application.expandInputFiles,
        getEntrypointsForPackages, packagesLoop, samplePackageEnv, errorApp,
        sampleApp, expandLoop, sampleFs, samplePathEnv, addEntry,
        entrypointsLoop, programsFor, errorProgram, findSourceProgram,
        Program.getSourceFile, getModuleName, removeModuleSuffix,
        moduleNameSuffixes, strEndsWith, supportedFileTest]; decide)
      (by simp [errorProgram])
  · exact convert_aborts_on_pre_emit_diagnostics.2 errorApp initialWatchState
      errorProgram (by simp [errorProgram])

/-- Concrete second clean program, containing `b.ts`. -/
def sampleProgramB : Program :=
  { rootFileNames := ["b.ts"], sourceFiles := ["b.ts"], preEmitDiagnostics := [] }

/-- Concrete watch state with a success callback pending and an empty log. -/
def pendingState : WatchState :=
  { successFinished := false, currentProgram := none, conversions := [] }

/-- Witness for C5 at a concrete input: with the callback pending, two program
creations only overwrite the stored program, and completion converts exactly
the latest one. -/
theorem watch_in_flight_rebuild_not_preempted_witness :
    ([sampleProgram, sampleProgramB].foldl
        (fun st p => watchStep sampleApp st (.afterProgramCreate p))
        pendingState =
      { pendingState with currentProgram := some sampleProgramB }) ∧
    watchStep sampleApp
      ([sampleProgram, sampleProgramB].foldl
        (fun st p => watchStep sampleApp st (.afterProgramCreate p))
        pendingState)
      .successComplete =
      { successFinished := false, currentProgram := none,
        conversions := pendingState.conversions ++
          [watchConvert sampleApp sampleProgramB] } :=
  watch_in_flight_rebuild_not_preempted sampleApp pendingState
    [sampleProgram, sampleProgramB] sampleProgramB rfl (by decide) (by decide)

/-- Concrete watch state agreeing with `pendingState` on the flag and the
stored program but with a different conversion history. -/
def historyState : WatchState :=
  { successFinished := false, currentProgram := none,
    conversions := [⟨.mk 0 "project" []⟩] }

/-- Witness for C6 at a concrete input: one `successComplete` transition from
`pendingState`, and the same transition from the different-history
`historyState`, append the same fresh conversions. -/
theorem watch_rebuild_runs_full_pipeline_witness :
    ((watchStep sampleApp pendingState .successComplete).conversions =
        pendingState.conversions ∨
      ∃ p, (watchStep sampleApp pendingState .successComplete).conversions =
        pendingState.conversions ++ [watchConvert sampleApp p]) ∧
    (watchStep sampleApp pendingState .successComplete).conversions.drop
        pendingState.conversions.length =
      (watchStep sampleApp historyState .successComplete).conversions.drop
        historyState.conversions.length :=
  ⟨(watch_rebuild_runs_full_pipeline sampleApp pendingState .successComplete).1,
   (watch_rebuild_runs_full_pipeline sampleApp pendingState .successComplete).2
      historyState rfl rfl⟩

/-- Concrete application whose exclude patterns match every path. -/
def excludeAllApp : App :=
  { sampleApp with exclude := fun _ => true }

/-- Witness for C8 at concrete inputs: even under an exclude configuration
matching everything, the directly given file `a.ts` is included; a directly
given directory is recursed into; and a file discovered during recursion is
dropped when excluded. -/
theorem exclude_ignored_for_direct_entry_points_witness :
    "a.ts" ∈ (Application.expandInputFiles excludeAllApp ["a.ts"]).1 ∧
    addEntry samplePathEnv (fun _ => true) false "d"
        (.dir [("c.ts", .file)]) true =
      addChildren samplePathEnv (fun _ => true) false
        (if strEndsWith "d" "/" then "d" else "d" ++ "/") [("c.ts", .file)] ∧
    addEntry samplePathEnv (fun _ => true) false "c.ts" .file false = [] :=
  ⟨exclude_ignored_for_direct_entry_points.1 excludeAllApp "a.ts"
      rfl (by decide),
   exclude_ignored_for_direct_entry_points.2.1 samplePathEnv
      (fun _ => true) false "d" [("c.ts", .file)],
   exclude_ignored_for_direct_entry_points.2.2 samplePathEnv
      (fun _ => true) false "c.ts" rfl⟩

/-- Witness for C9 at a concrete input: `a.ts` is associated with
`sampleProgram`, the first program of `programsFor sampleApp` containing it. -/
theorem entrypoints_use_first_containing_program_witness :
    ∃ pre post, programsFor sampleApp = pre ++ sampleProgram :: post ∧
      (∀ q ∈ pre, q.getSourceFile "a.ts" = none) ∧
      sampleProgram.getSourceFile "a.ts" = some "a.ts" :=
  (entrypoints_use_first_containing_program sampleApp
    ["missing.ts", "a.ts"]).2.1 "a.ts" sampleProgram "a.ts" (by decide)

/-- Concrete application whose resolved tsconfig contributes no file names. -/
def noFileNamesApp : App :=
  { sampleApp with fileNames := [] }

/-- Witness for C10 at a concrete input: with no contributed file names,
`convertAndWatch` refuses to start watching. -/
theorem watch_rejects_unsupported_configuration_witness :
    Application.convertAndWatch noFileNamesApp = none :=
  watch_rejects_unsupported_configuration noFileNamesApp (Or.inl rfl)
